import Mathlib

/-!
Shallow embedding of the `autoupgrade` Go package (melt-inc/autoupgrade).

The package lets a running binary replace itself with the newest published
build via `go install`, and exposes build metadata for the current process
and the newly installed binary.

External collaborators (the build-metadata reader, the `go install` process
runner, and the executable-path resolver) are modelled as an explicit
environment `Env` of injected capabilities.  Stateful pieces (the
`sync.Once`-guarded lazy cache inside `UpgradeResult`, the buffered result
channel of `UpgradeBackground`) are modelled by explicit state passing.
Invocation counts of the external collaborators are returned alongside the
results so that "the reader is invoked at most once" style properties can
be stated.
-/

namespace Autoupgrade

/-- The slice of `debug.BuildInfo` the package uses: `Main.Path` and
`Main.Version`. -/
structure BuildInfo where
  mainPath : String
  mainVersion : String
deriving DecidableEq, Repr

/-- The state of the `sync.Once`-guarded lazy pair
`(newInfo, newInfoErr)` inside an `UpgradeResult`: either not yet
resolved, or resolved to a cached `(metadata, error)` pair.  Errors are
modelled as `Option String` (`none` = Go `nil`). -/
inductive NewCell where
  | unresolved : NewCell
  | resolved (info : Option BuildInfo) (err : Option String) : NewCell
deriving DecidableEq, Repr

/-- `UpgradeResult`: current build info (nil iff metadata unreadable),
the error of the install step (`ExitError`), and the lazy cell standing
for the `once`/`newInfo`/`newInfoErr` fields. -/
structure UpgradeResult where
  currentInfo : Option BuildInfo
  exitError : Option String
  cell : NewCell
deriving DecidableEq, Repr

/-- The injected external collaborators:
`readBuildInfo` models `debug.ReadBuildInfo` (`none` = not ok),
`installerRun` models running `go install <target>` (result `none` = nil
error), `executablePath` models `os.Executable`, and `readFile` models
`buildinfo.ReadFile`. -/
structure Env where
  readBuildInfo : Option BuildInfo
  installerRun : String → Option String
  executablePath : Except String String
  readFile : String → Except String BuildInfo

/-! ### `path.Join` / `path.Clean` (Go standard library), at the level
used by `fullPath` -/

/-- `strings`-style split of a character list at every `/`, as performed
by the element scan inside Go `path.Clean`: `n` slashes yield `n+1`
fields, empty fields included. -/
def splitSlash : List Char → List (List Char)
  | [] => [[]]
  | c :: rest =>
    if c = '/' then [] :: splitSlash rest
    else
      match splitSlash rest with
      | [] => [[c]]
      | h :: t => (c :: h) :: t

/-- One step of Go `path.Clean`'s element processing: empty and `.`
elements are dropped, `..` pops the last kept element (unless the stack
is empty — then it is dropped when rooted and kept when relative, or the
top is itself a kept `..`), and every other element is pushed.  The
stack is kept in reverse order. -/
def cleanStep (rooted : Bool) (stack : List (List Char)) (e : List Char) : List (List Char) :=
  if e = [] ∨ e = ['.'] then stack
  else if e = ['.', '.'] then
    match stack with
    | t :: rest => if t = ['.', '.'] then e :: stack else rest
    | [] => if rooted then [] else [['.', '.']]
  else e :: stack

/-- Interleave `/` between character-list segments (`strings.Join` with
separator `/`). -/
def joinSlash : List (List Char) → List Char
  | [] => []
  | [x] => x
  | x :: y :: rest => x ++ '/' :: joinSlash (y :: rest)

/-- Go `path.Clean`: empty path cleans to `.`; otherwise the fields of
the path are processed by `cleanStep` and rejoined, restoring the
leading `/` for rooted paths, with `/` (rooted) or `.` (relative)
returned when nothing remains. -/
def pathClean (p : String) : String :=
  if p = "" then "."
  else
    let cs := p.data
    let rooted := cs.head? == some '/'
    let elems := (splitSlash cs).foldl (cleanStep rooted) []
    let out := joinSlash elems.reverse
    if rooted then String.mk ('/' :: out)
    else if out = [] then "."
    else String.mk out

/-- Go `path.Join` restricted to two arguments, as `fullPath` uses it:
both empty gives `""`; otherwise the parts are concatenated with a `/`
inserted once the buffer is non-empty, and the result is cleaned. -/
def pathJoin (a b : String) : String :=
  if a = "" ∧ b = "" then ""
  else if a = "" then pathClean b
  else pathClean (a ++ "/" ++ b)

/-- `fullPath` from `autoupgrade.go`: the `go install` target string,
`path.Join(modulePath, packagePath+"@"+version)`. -/
def fullPath (modulePath packagePath version : String) : String :=
  pathJoin modulePath (packagePath ++ "@" ++ version)

/-- A normal path segment: non-empty, slash-free, and not one of the
special `.` / `..` elements that `path.Clean` rewrites. -/
def normalSeg (f : List Char) : Prop :=
  f ≠ [] ∧ '/' ∉ f ∧ f ≠ ['.'] ∧ f ≠ ['.', '.']

/-- A field that is either empty (a redundant separator artifact) or a
normal segment. -/
def segOk (f : List Char) : Prop :=
  f = [] ∨ normalSeg f

instance (f : List Char) : Decidable (normalSeg f) := by
  unfold normalSeg
  infer_instance

instance (f : List Char) : Decidable (segOk f) := by
  unfold segOk
  infer_instance

/-! ### `Upgrade` -/

/-- `Upgrade(ctx, packagePath)` from `autoupgrade.go`.  Alongside the
`UpgradeResult` it returns the list of targets the installer
(`go install`) was invoked on, so that "the installer is never invoked"
and "invoked exactly once on this target" are statable.  Context
cancellation only influences what `installerRun` returns, so `ctx` does
not appear separately. -/
def upgrade (env : Env) (packagePath : String) : UpgradeResult × List String :=
  match env.readBuildInfo with
  | none => (⟨none, none, .unresolved⟩, [])
  | some info =>
    if info.mainVersion = "(devel)" then (⟨some info, none, .unresolved⟩, [])
    else if info.mainPath = "" then (⟨some info, none, .unresolved⟩, [])
    else
      let target := fullPath info.mainPath packagePath "latest"
      let err := env.installerRun target
      (⟨some info, err, .unresolved⟩, [target])

/-! ### `NewBuildInfo` and `DidUpgrade` -/

/-- `UpgradeResult.NewBuildInfo` from `autoupgrade.go`.  The
`sync.Once` body runs only when the cell is unresolved; whatever pair it
produces is cached in the returned state.  The two trailing naturals
count, for this call, the invocations of the executable-path resolver
(`os.Executable`) and of the metadata reader (`buildinfo.ReadFile`). -/
def newBuildInfo (env : Env) (u : UpgradeResult) :
    (Option BuildInfo × Option String) × UpgradeResult × Nat × Nat :=
  match u.cell with
  | .resolved i e => ((i, e), u, 0, 0)
  | .unresolved =>
    match env.executablePath with
    | .error e => ((none, some e), { u with cell := .resolved none (some e) }, 1, 0)
    | .ok p =>
      match env.readFile p with
      | .error e => ((none, some e), { u with cell := .resolved none (some e) }, 1, 1)
      | .ok i => ((some i, none), { u with cell := .resolved (some i) none }, 1, 1)

/-- `UpgradeResult.DidUpgrade` from `autoupgrade.go`, with the updated
result state and the path-resolver/reader invocation counts of the
embedded `NewBuildInfo` call passed through. -/
def didUpgrade (env : Env) (u : UpgradeResult) : Bool × UpgradeResult × Nat × Nat :=
  match u.currentInfo with
  | none => (false, u, 0, 0)
  | some ci =>
    if ci.mainVersion = "(devel)" then (false, u, 0, 0)
    else
      match newBuildInfo env u with
      | ((newInfo, _), u', pc, rc) =>
        match newInfo with
        | none => (false, u', pc, rc)
        | some ni => (decide (ni.mainVersion ≠ ci.mainVersion), u', pc, rc)

/-- Repeated sequential calls of `NewBuildInfo` on one instance (an
arbitrary serialization of the callers racing through `sync.Once`):
the list of observed `(metadata, error)` pairs, the final state, and the
total path-resolver and reader invocation counts. -/
def callSeq (env : Env) (u : UpgradeResult) :
    Nat → List (Option BuildInfo × Option String) × UpgradeResult × Nat × Nat
  | 0 => ([], u, 0, 0)
  | n + 1 =>
    match newBuildInfo env u with
    | (r, u', pc, rc) =>
      match callSeq env u' n with
      | (rs, u'', pcs, rcs) => (r :: rs, u'', pc + pcs, rc + rcs)

/-! ### `UpgradeBackground` -/

/-- A context, reduced to what the `select` in `UpgradeBackground`
observes: whether `ctx.Done()` is ready when the `select` runs, and what
`ctx.Err()` returns then. -/
structure Ctx where
  doneReady : Bool
  err : String

/-- A Go channel of `UpgradeResult` pointers with capacity 1: its
buffered values and whether it has been closed. -/
structure Chan where
  buf : List UpgradeResult
  closedFlag : Bool
deriving DecidableEq, Repr

/-- `ch <- r` on a capacity-1 channel: `none` when the send cannot
complete immediately (buffer full — the goroutine would block — or
channel closed — panic). -/
def chanSend (c : Chan) (r : UpgradeResult) : Option Chan :=
  if c.closedFlag then none
  else if 1 ≤ c.buf.length then none
  else some { c with buf := c.buf ++ [r] }

/-- `close(ch)`: `none` when the channel is already closed (panic). -/
def chanClose (c : Chan) : Option Chan :=
  if c.closedFlag then none else some { c with closedFlag := true }

/-- The goroutine body of `UpgradeBackground` run against a fresh
`make(chan *UpgradeResult, 1)`.  Per Go `select` semantics the sent
value `Upgrade(ctx, packagePath)` is evaluated before the `select`
chooses a case; `pickCancel` resolves the nondeterministic choice when
both the `<-ctx.Done()` case and the send case are ready.  The deferred
`close(ch)` runs after the chosen case.  `none` means some channel
operation blocked forever or panicked. -/
def upgradeBackground (env : Env) (ctx : Ctx) (pickCancel : Bool) (packagePath : String) :
    Option Chan :=
  let res := (upgrade env packagePath).1
  let sent := if ctx.doneReady && pickCancel then ⟨none, some ctx.err, .unresolved⟩ else res
  match chanSend ⟨[], false⟩ sent with
  | none => none
  | some c => chanClose c

/-! ### Concrete fixtures (test doubles for the external collaborators) -/

/-- A released current build. -/
def infoA : BuildInfo := ⟨"example.com/mod", "v1.0.0"⟩

/-- The build found in the executable after a successful install. -/
def infoB : BuildInfo := ⟨"example.com/mod", "v1.1.0"⟩

/-- A development build (`(devel)` sentinel). -/
def infoDevel : BuildInfo := ⟨"example.com/mod", "(devel)"⟩

/-- Everything succeeds: metadata readable, installer succeeds, the
executable path resolves and reads as `infoB`. -/
def envA : Env := ⟨some infoA, fun _ => none, .ok "/usr/bin/tool", fun _ => .ok infoB⟩

/-- Current build metadata is unreadable. -/
def envNoInfo : Env := ⟨none, fun _ => none, .error "no path", fun _ => .error "no file"⟩

/-- The current build is a development build. -/
def envDevel : Env := ⟨some infoDevel, fun _ => none, .error "no path", fun _ => .error "no file"⟩

/-- The installer fails with a non-zero exit status. -/
def envFail : Env := ⟨some infoA, fun _ => some "exit status 1", .ok "/usr/bin/tool", fun _ => .ok infoB⟩

/-- The executable-path resolver fails. -/
def envPathErr : Env := ⟨some infoA, fun _ => none, .error "exec path failed", fun _ => .ok infoB⟩

/-- A fresh `&UpgradeResult{}`. -/
def u0 : UpgradeResult := ⟨none, none, .unresolved⟩

/-- The result of a successful install attempt for `infoA`, lazy cell
still unresolved. -/
def uA : UpgradeResult := ⟨some infoA, none, .unresolved⟩

/-! ### Helper lemmas about the lazy cell -/

theorem newBuildInfo_resolved (env : Env) (u : UpgradeResult) (i : Option BuildInfo)
    (e : Option String) (h : u.cell = NewCell.resolved i e) :
    newBuildInfo env u = ((i, e), u, 0, 0) := by
  simp [newBuildInfo, h]

theorem newBuildInfo_unresolved (env : Env) (u : UpgradeResult)
    (h : u.cell = NewCell.unresolved) :
    ∃ i e rc, rc ≤ 1 ∧
      newBuildInfo env u = ((i, e), { u with cell := NewCell.resolved i e }, 1, rc) ∧
      ((∃ q, env.executablePath = Except.ok q) → rc = 1) := by
  rcases hp : env.executablePath with e | q
  · exact ⟨none, some e, 0, by simp, by simp [newBuildInfo, h, hp], by simp [hp]⟩
  · rcases hr : env.readFile q with e2 | i2
    · exact ⟨none, some e2, 1, by simp, by simp [newBuildInfo, h, hp, hr], fun _ => rfl⟩
    · exact ⟨some i2, none, 1, by simp, by simp [newBuildInfo, h, hp, hr], fun _ => rfl⟩

theorem newBuildInfo_cell (env : Env) (u : UpgradeResult) :
    ∀ r u' pc rc, newBuildInfo env u = (r, u', pc, rc) →
      u'.cell = NewCell.resolved r.1 r.2 ∧ u'.currentInfo = u.currentInfo ∧
      u'.exitError = u.exitError := by
  intro r u' pc rc h
  rcases hc : u.cell with _ | ⟨i, e⟩
  · rcases hp : env.executablePath with e | q
    · simp [newBuildInfo, hc, hp] at h
      rcases h with ⟨h1, h2, -⟩
      subst h1 h2
      simp [hc]
    · rcases hr : env.readFile q with e2 | i2 <;>
        simp [newBuildInfo, hc, hp, hr] at h <;>
        rcases h with ⟨h1, h2, -⟩ <;> subst h1 h2 <;> simp [hc]
  · simp [newBuildInfo, hc] at h
    rcases h with ⟨h1, h2, -⟩
    subst h1 h2
    simp [hc]

theorem callSeq_resolved (env : Env) (u : UpgradeResult) (i : Option BuildInfo)
    (e : Option String) (h : u.cell = NewCell.resolved i e) :
    ∀ m, callSeq env u m = (List.replicate m (i, e), u, 0, 0) := by
  intro m
  induction m with
  | zero => simp [callSeq]
  | succ k ih => simp [callSeq, newBuildInfo_resolved env u i e h, ih, List.replicate]

theorem didUpgrade_fst_exitError (env : Env) (u : UpgradeResult) (e' : Option String) :
    (didUpgrade env { u with exitError := e' }).1 = (didUpgrade env u).1 := by
  rcases u with ⟨ci, ex, cell⟩
  rcases ci with _ | c
  · simp [didUpgrade]
  · by_cases hv : c.mainVersion = "(devel)"
    · simp [didUpgrade, hv]
    · rcases cell with _ | ⟨i, e⟩
      · rcases hp : env.executablePath with e | q
        · simp [didUpgrade, newBuildInfo, hv, hp]
        · rcases hr : env.readFile q with e2 | i2 <;>
            simp [didUpgrade, newBuildInfo, hv, hp, hr]
      · rcases i with _ | ni <;> simp [didUpgrade, newBuildInfo, hv]

/-! ### Claim theorems -/

/-- C7: for the non-empty subPath `"c/d"`, `fullPath` joins the module
identifier and the subPath with a single separator and appends
`@versionTag` to the final segment:
`fullPath "a/b" "c/d" "latest" = "a/b/c/d@latest"`. -/
theorem C7_fullPath_nonempty_subPath :
    fullPath "a/b" "c/d" "latest" = "a/b/c/d@latest" := by decide

/-- C6 evaluation at the failing input: for an empty subPath the code
does NOT produce `moduleId@versionTag`; `path.Join` keeps
`"@v1.2.3"` as a path segment of its own, so
`fullPath "a/b" "" "v1.2.3"` is `"a/b/@v1.2.3"`, with a separator
before the `@`. -/
theorem C6_fullPath_empty_subPath :
    fullPath "a/b" "" "v1.2.3" = "a/b/@v1.2.3" ∧
    fullPath "a/b" "" "v1.2.3" ≠ "a/b@v1.2.3" := by decide

/-- C2: `UpgradeBackground` always delivers exactly one `UpgradeResult`
on its capacity-1 channel and then closes it — for every environment,
context state, race resolution and subPath, the run completes (no send
blocks or panics) with a final channel holding exactly one buffered
result and the closed flag set. -/
theorem C2_upgradeBackground_exactly_once (env : Env) (ctx : Ctx) (pickCancel : Bool)
    (p : String) :
    ∃ r, upgradeBackground env ctx pickCancel p = some ⟨[r], true⟩ :=
  ⟨_, rfl⟩

/-- C9: when the cancel-versus-finish race resolves in favor of
cancellation, the delivered result carries only the context's error as
`ExitError` with `CurrentInfo` nil, and `DidUpgrade` on that result is
false with zero path-resolver and reader invocations (the lazy read is
never triggered). -/
theorem C9_cancel_race_result (env : Env) (ctx : Ctx) (pickCancel : Bool) (p : String)
    (hd : ctx.doneReady = true) (hp : pickCancel = true) :
    upgradeBackground env ctx pickCancel p
        = some ⟨[⟨none, some ctx.err, NewCell.unresolved⟩], true⟩ ∧
    didUpgrade env ⟨none, some ctx.err, NewCell.unresolved⟩
        = (false, ⟨none, some ctx.err, NewCell.unresolved⟩, 0, 0) := by
  constructor
  · simp [upgradeBackground, hd, hp, chanSend, chanClose]
  · simp [didUpgrade]

/-- C9 witness: the cancellation branch at a concrete environment and
context. -/
theorem C9_cancel_race_result_witness :
    upgradeBackground envA ⟨true, "context canceled"⟩ true "cmd/foo"
        = some ⟨[⟨none, some "context canceled", NewCell.unresolved⟩], true⟩ ∧
    didUpgrade envA ⟨none, some "context canceled", NewCell.unresolved⟩
        = (false, ⟨none, some "context canceled", NewCell.unresolved⟩, 0, 0) :=
  C9_cancel_race_result envA ⟨true, "context canceled"⟩ true "cmd/foo" rfl rfl

/-- C3: `upgrade` skips the install exactly when metadata is unreadable
(result carries no metadata and no install error), the version is the
`"(devel)"` sentinel, or the module path is empty (result carries the
metadata, installer never invoked); otherwise the installer is invoked
exactly once, on the target built from the module path, the supplied
subPath and the fixed `"latest"` tag. -/
theorem C3_upgrade_gate (env : Env) (p : String) :
    (env.readBuildInfo = none →
      upgrade env p = (⟨none, none, NewCell.unresolved⟩, [])) ∧
    (∀ info, env.readBuildInfo = some info →
      (info.mainVersion = "(devel)" →
        upgrade env p = (⟨some info, none, NewCell.unresolved⟩, [])) ∧
      (info.mainVersion ≠ "(devel)" → info.mainPath = "" →
        upgrade env p = (⟨some info, none, NewCell.unresolved⟩, [])) ∧
      (info.mainVersion ≠ "(devel)" → info.mainPath ≠ "" →
        upgrade env p =
          (⟨some info, env.installerRun (fullPath info.mainPath p "latest"),
            NewCell.unresolved⟩, [fullPath info.mainPath p "latest"]))) := by
  refine ⟨fun h => by simp [upgrade, h], fun info h => ⟨?_, ?_, ?_⟩⟩
  · intro hv
    simp [upgrade, h, hv]
  · intro hv hmp
    simp [upgrade, h, hv, hmp]
  · intro hv hmp
    simp [upgrade, h, hv, hmp]

/-- C3 witness: the three skip branches and the install branch at
concrete environments. -/
theorem C3_upgrade_gate_witness :
    upgrade envNoInfo "cmd/foo" = (⟨none, none, NewCell.unresolved⟩, []) ∧
    upgrade envDevel "cmd/foo" = (⟨some infoDevel, none, NewCell.unresolved⟩, []) ∧
    upgrade envA "cmd/foo" =
      (⟨some infoA, envA.installerRun (fullPath infoA.mainPath "cmd/foo" "latest"),
        NewCell.unresolved⟩, [fullPath infoA.mainPath "cmd/foo" "latest"]) :=
  ⟨(C3_upgrade_gate envNoInfo "cmd/foo").1 rfl,
   ((C3_upgrade_gate envDevel "cmd/foo").2 infoDevel rfl).1 rfl,
   ((C3_upgrade_gate envA "cmd/foo").2 infoA rfl).2.2 (by decide) (by decide)⟩

/-- C5: the result's `ExitError` is non-nil iff the install step ran
and failed: it is `nil` whenever the installer was not invoked, it is
verbatim the installer's returned error whenever the installer was
invoked, the installer runs at most once (no retry), and `DidUpgrade`'s
boolean does not depend on `ExitError`. -/
theorem C5_exitError_verbatim (env : Env) (p : String) :
    ((upgrade env p).2 = [] → (upgrade env p).1.exitError = none) ∧
    (∀ t, (upgrade env p).2 = [t] →
      (upgrade env p).1.exitError = env.installerRun t) ∧
    (upgrade env p).2.length ≤ 1 ∧
    ((upgrade env p).1.exitError ≠ none → (upgrade env p).2 ≠ []) ∧
    (∀ u e', (didUpgrade env { u with exitError := e' }).1 = (didUpgrade env u).1) := by
  refine ⟨?_, ?_, ?_, ?_, fun u e' => didUpgrade_fst_exitError env u e'⟩ <;>
    rcases h : env.readBuildInfo with _ | info
  · simp [upgrade, h]
  · by_cases hv : info.mainVersion = "(devel)" <;> by_cases hmp : info.mainPath = "" <;>
      simp [upgrade, h, hv, hmp]
  · simp [upgrade, h]
  · by_cases hv : info.mainVersion = "(devel)" <;> by_cases hmp : info.mainPath = "" <;>
      simp [upgrade, h, hv, hmp]
  · simp [upgrade, h]
  · by_cases hv : info.mainVersion = "(devel)" <;> by_cases hmp : info.mainPath = "" <;>
      simp [upgrade, h, hv, hmp]
  · simp [upgrade, h]
  · by_cases hv : info.mainVersion = "(devel)" <;> by_cases hmp : info.mainPath = "" <;>
      simp [upgrade, h, hv, hmp]

/-- C5 witness: the installer's non-zero-exit error is stored verbatim
at a concrete environment, and `DidUpgrade` ignores `ExitError` there. -/
theorem C5_exitError_verbatim_witness :
    ((upgrade envFail "cmd/foo").2 = [] → (upgrade envFail "cmd/foo").1.exitError = none) ∧
    (∀ t, (upgrade envFail "cmd/foo").2 = [t] →
      (upgrade envFail "cmd/foo").1.exitError = envFail.installerRun t) ∧
    (upgrade envFail "cmd/foo").2.length ≤ 1 ∧
    ((upgrade envFail "cmd/foo").1.exitError ≠ none → (upgrade envFail "cmd/foo").2 ≠ []) ∧
    (∀ u e', (didUpgrade envFail { u with exitError := e' }).1 = (didUpgrade envFail u).1) :=
  C5_exitError_verbatim envFail "cmd/foo"

/-- C1: on each `UpgradeResult` instance the lazy new-metadata
resolution runs at most once — for any number `n ≥ 1` of calls to
`NewBuildInfo` (an arbitrary serialization of concurrent callers
through the `sync.Once`), the path resolver runs exactly once in total,
the reader at most once in total (exactly once whenever the path
resolves), every caller observes the identical `(metadata, error)`
pair, and neither resolver nor reader is re-invoked after the first
successful or failed resolution. -/
theorem C1_newBuildInfo_once (env : Env) (u : UpgradeResult) (n : Nat)
    (h : u.cell = NewCell.unresolved) (hn : 1 ≤ n) :
    ∃ pr u' rc, rc ≤ 1 ∧
      newBuildInfo env u = (pr, u', 1, rc) ∧
      callSeq env u n = (List.replicate n pr, u', 1, rc) ∧
      ((∃ q, env.executablePath = Except.ok q) → rc = 1) := by
  obtain ⟨i, e, rc, hrc, hnb, hok⟩ := newBuildInfo_unresolved env u h
  refine ⟨(i, e), { u with cell := NewCell.resolved i e }, rc, hrc, hnb, ?_, hok⟩
  obtain ⟨m, rfl⟩ : ∃ m, n = m + 1 := ⟨n - 1, by omega⟩
  have hres : ({ u with cell := NewCell.resolved i e } : UpgradeResult).cell
      = NewCell.resolved i e := rfl
  simp [callSeq, hnb, callSeq_resolved env _ i e hres m, List.replicate]

/-- C1 witness: three sequential calls on a fresh result in the
all-successful environment. -/
theorem C1_newBuildInfo_once_witness :
    ∃ pr u' rc, rc ≤ 1 ∧
      newBuildInfo envA u0 = (pr, u', 1, rc) ∧
      callSeq envA u0 3 = (List.replicate 3 pr, u', 1, rc) ∧
      ((∃ q, envA.executablePath = Except.ok q) → rc = 1) :=
  C1_newBuildInfo_once envA u0 3 rfl (by decide)

/-- C10: if the executable-path resolution fails on the first
`NewBuildInfo` call, the metadata reader is never invoked for that
instance — the call returns `(nil, error)` with one path-resolver and
zero reader invocations, the pair is cached permanently, and every
later call returns the same pair with zero further path-resolver or
reader invocations. -/
theorem C10_path_error_no_read (env : Env) (u : UpgradeResult) (e : String)
    (hc : u.cell = NewCell.unresolved) (hp : env.executablePath = Except.error e) :
    newBuildInfo env u
        = ((none, some e), { u with cell := NewCell.resolved none (some e) }, 1, 0) ∧
    ∀ n, callSeq env { u with cell := NewCell.resolved none (some e) } n
        = (List.replicate n (none, some e),
           { u with cell := NewCell.resolved none (some e) }, 0, 0) := by
  constructor
  · simp [newBuildInfo, hc, hp]
  · exact callSeq_resolved env _ none (some e) rfl

/-- C10 witness: a concrete failing path resolver, with two later
calls. -/
theorem C10_path_error_no_read_witness :
    newBuildInfo envPathErr u0
        = ((none, some "exec path failed"),
           { u0 with cell := NewCell.resolved none (some "exec path failed") }, 1, 0) ∧
    ∀ n, callSeq envPathErr { u0 with cell := NewCell.resolved none (some "exec path failed") } n
        = (List.replicate n (none, some "exec path failed"),
           { u0 with cell := NewCell.resolved none (some "exec path failed") }, 0, 0) :=
  C10_path_error_no_read envPathErr u0 "exec path failed" rfl rfl

/-- C4: `DidUpgrade` is false when `CurrentInfo` is nil and when the
current version is the `"(devel)"` sentinel; otherwise it resolves the
lazy new metadata (whatever `NewBuildInfo` would return), is false when
that resolution produced no metadata, and otherwise is true iff the new
version differs from the current one; a resolution error is swallowed
for the boolean but the cached pair stays observable via `NewBuildInfo`
on the updated instance with no further reads. -/
theorem C4_didUpgrade_characterized (env : Env) (u : UpgradeResult) :
    (u.currentInfo = none → didUpgrade env u = (false, u, 0, 0)) ∧
    (∀ ci, u.currentInfo = some ci →
      (ci.mainVersion = "(devel)" → didUpgrade env u = (false, u, 0, 0)) ∧
      (ci.mainVersion ≠ "(devel)" →
        ∀ i e u' pc rc, newBuildInfo env u = ((i, e), u', pc, rc) →
          (i = none → didUpgrade env u = (false, u', pc, rc)) ∧
          (∀ ni, i = some ni →
            didUpgrade env u = (decide (ni.mainVersion ≠ ci.mainVersion), u', pc, rc)) ∧
          newBuildInfo env u' = ((i, e), u', 0, 0))) := by
  refine ⟨fun h => by simp [didUpgrade, h],
    fun ci h => ⟨fun hv => by simp [didUpgrade, h, hv], ?_⟩⟩
  intro hv i e u' pc rc hnb
  have hcell := newBuildInfo_cell env u (i, e) u' pc rc hnb
  refine ⟨?_, ?_, newBuildInfo_resolved env u' i e hcell.1⟩
  · intro hi
    subst hi
    simp [didUpgrade, h, hv, hnb]
  · intro ni hi
    subst hi
    simp [didUpgrade, h, hv, hnb]

/-- C4 witness: in the all-successful environment the versions differ,
so `DidUpgrade` is true, and the resolved pair is cached. -/
theorem C4_didUpgrade_characterized_witness :
    didUpgrade envA uA
        = (decide (infoB.mainVersion ≠ infoA.mainVersion),
           { uA with cell := NewCell.resolved (some infoB) none }, 1, 1) :=
  ((((C4_didUpgrade_characterized envA uA).2 infoA rfl).2 (by decide)
      (some infoB) none { uA with cell := NewCell.resolved (some infoB) none } 1 1 rfl).2.1
    infoB rfl)

/-! ### Lemmas about `splitSlash`, `joinSlash` and `cleanStep` -/

theorem joinSlash_cons_ne_nil (x : List Char) (xs : List (List Char)) (hx : x ≠ []) :
    joinSlash (x :: xs) ≠ [] := by
  cases xs with
  | nil => simpa [joinSlash] using hx
  | cons y ys => simp [joinSlash, hx]

theorem joinSlash_head (x : List Char) (xs : List (List Char)) (hx : x ≠ []) :
    (joinSlash (x :: xs)).head? = x.head? := by
  cases xs with
  | nil => simp [joinSlash]
  | cons y ys =>
    rcases x with _ | ⟨c, x'⟩
    · exact absurd rfl hx
    · simp [joinSlash]

theorem joinSlash_append (fs gs : List (List Char)) (hfs : fs ≠ []) (hgs : gs ≠ []) :
    joinSlash (fs ++ gs) = joinSlash fs ++ '/' :: joinSlash gs := by
  induction fs with
  | nil => exact absurd rfl hfs
  | cons f fs' ih =>
    rcases fs' with _ | ⟨f2, fs''⟩
    · rcases gs with _ | ⟨g, gs'⟩
      · exact absurd rfl hgs
      · simp [joinSlash]
    · have h2 : (f2 :: fs'') ++ gs = f2 :: (fs'' ++ gs) := rfl
      calc joinSlash ((f :: f2 :: fs'') ++ gs)
          = f ++ '/' :: joinSlash ((f2 :: fs'') ++ gs) := by
            rw [List.cons_append, h2]
            rfl
        _ = f ++ '/' :: (joinSlash (f2 :: fs'') ++ '/' :: joinSlash gs) := by
            rw [ih (by simp) ]
        _ = (f ++ '/' :: joinSlash (f2 :: fs'')) ++ '/' :: joinSlash gs := by
            simp
        _ = joinSlash (f :: f2 :: fs'') ++ '/' :: joinSlash gs := by
            rfl

theorem joinSlash_last_append (ts : List (List Char)) (lastSeg x : List Char) :
    joinSlash (ts ++ [lastSeg]) ++ x = joinSlash (ts ++ [lastSeg ++ x]) := by
  rcases ts with _ | ⟨t, ts'⟩
  · simp [joinSlash]
  · rw [joinSlash_append (t :: ts') [lastSeg] (by simp) (by simp),
        joinSlash_append (t :: ts') [lastSeg ++ x] (by simp) (by simp)]
    simp [joinSlash]

theorem splitSlash_no_slash (x : List Char) (hx : '/' ∉ x) : splitSlash x = [x] := by
  induction x with
  | nil => rfl
  | cons c x' ih =>
    have hc : ¬ c = '/' := fun h => hx (by simp [h])
    have hx' : '/' ∉ x' := fun h => hx (by simp [h])
    simp [splitSlash, hc, ih hx']

theorem splitSlash_append_slash (x r : List Char) (hx : '/' ∉ x) :
    splitSlash (x ++ '/' :: r) = x :: splitSlash r := by
  induction x with
  | nil => simp [splitSlash]
  | cons c x' ih =>
    have hc : ¬ c = '/' := fun h => hx (by simp [h])
    have hx' : '/' ∉ x' := fun h => hx (by simp [h])
    simp [splitSlash, hc, ih hx']

theorem splitSlash_joinSlash (fs : List (List Char)) (hfs : fs ≠ [])
    (hns : ∀ f ∈ fs, '/' ∉ f) : splitSlash (joinSlash fs) = fs := by
  induction fs with
  | nil => exact absurd rfl hfs
  | cons f fs' ih =>
    rcases fs' with _ | ⟨f2, fs''⟩
    · exact splitSlash_no_slash f (hns f (by simp))
    · have hjoin : joinSlash (f :: f2 :: fs'') = f ++ '/' :: joinSlash (f2 :: fs'') := rfl
      rw [hjoin, splitSlash_append_slash f _ (hns f (by simp)),
          ih (by simp) (fun g hg => hns g (by simp [hg]))]

theorem foldl_cleanStep_ok (rooted : Bool) :
    ∀ (fields : List (List Char)) (acc : List (List Char)),
      (∀ f ∈ fields, segOk f) →
      List.foldl (cleanStep rooted) acc fields
        = (fields.filter (fun f => !f.isEmpty)).reverse ++ acc := by
  intro fields
  induction fields with
  | nil => intro acc _; rfl
  | cons f rest ih =>
    intro acc hok
    rcases hok f (by simp) with hf | ⟨hne, hns, hd1, hd2⟩
    · subst hf
      have hstep : cleanStep rooted acc [] = acc := by simp [cleanStep]
      simp only [List.foldl_cons, hstep, List.filter_cons]
      rw [ih acc (fun g hg => hok g (by simp [hg]))]
      simp
    · have hnd : ¬ ([] : List Char) ∈ ([f] : List (List Char)) := by simp [Ne.symm hne]
      have hstep : cleanStep rooted acc f = f :: acc := by
        have h1 : ¬ (f = [] ∨ f = ['.']) := by
          rintro (h | h)
          · exact hne h
          · exact hd1 h
        simp [cleanStep, h1, hd2]
      simp only [List.foldl_cons, hstep, List.filter_cons]
      rw [ih (f :: acc) (fun g hg => hok g (by simp [hg]))]
      have : (!f.isEmpty) = true := by
        cases f
        · exact absurd rfl hne
        · rfl
      simp [this]

theorem joinSlash_append_last_ne_nil (xs : List (List Char)) (l : List Char) (hl : l ≠ []) :
    joinSlash (xs ++ [l]) ≠ [] := by
  rcases xs with _ | ⟨x, xs'⟩
  · simpa [joinSlash] using hl
  · rcases hx : xs' ++ [l] with _ | ⟨y, ys⟩
    · simp at hx
    · simp [joinSlash, hx]

theorem pathClean_fields (p : String) (f₀ : List Char) (rest : List (List Char))
    (hdata : p.data = joinSlash (f₀ :: rest))
    (hf₀ : normalSeg f₀)
    (hok : ∀ f ∈ f₀ :: rest, segOk f) :
    pathClean p = String.mk (joinSlash ((f₀ :: rest).filter (fun f => !f.isEmpty))) := by
  have hjn : joinSlash (f₀ :: rest) ≠ [] := joinSlash_cons_ne_nil f₀ rest hf₀.1
  have hpne : p ≠ "" := by
    intro h
    rw [h] at hdata
    exact hjn hdata.symm
  have hns : ∀ f ∈ f₀ :: rest, '/' ∉ f := by
    intro f hf
    rcases hok f hf with h | h
    · subst h; simp
    · exact h.2.1
  have hsplit : splitSlash p.data = f₀ :: rest := by
    rw [hdata]
    exact splitSlash_joinSlash _ (by simp) hns
  have hhead : p.data.head? = f₀.head? := by
    rw [hdata]
    exact joinSlash_head f₀ rest hf₀.1
  have hrooted : (p.data.head? == some '/') = false := by
    rw [hhead]
    rcases hf : f₀ with _ | ⟨c, f'⟩
    · exact absurd hf hf₀.1
    · have hc : c ≠ '/' := by
        intro h
        exact hf₀.2.1 (by simp [hf, h])
      simp [hc]
  unfold pathClean
  rw [if_neg hpne]
  simp only [hrooted, hsplit, Bool.false_eq_true, if_false]
  rw [foldl_cleanStep_ok false (f₀ :: rest) [] hok]
  have hkeep : (!f₀.isEmpty) = true := by
    rcases hf : f₀ with _ | ⟨c, f'⟩
    · exact absurd hf hf₀.1
    · rfl
  have hfil : (f₀ :: rest).filter (fun f => !f.isEmpty)
      = f₀ :: rest.filter (fun f => !f.isEmpty) := by
    simp [List.filter_cons, hkeep]
  have hout : joinSlash ((((f₀ :: rest).filter (fun f => !f.isEmpty)).reverse
        ++ ([] : List (List Char))).reverse)
      ≠ [] := by
    simp only [List.append_nil, List.reverse_reverse, hfil]
    exact joinSlash_cons_ne_nil _ _ hf₀.1
  rw [if_neg ?hne]
  case hne => simpa using hout
  simp

/-- C8 counterexample: a subPath with a trailing separator does NOT
yield a target whose last segment is `segment@versionTag` — the `@`
ends up preceded by a separator:
`fullPath "a/b" "c/" "latest" = "a/b/c/@latest"`, not
`"a/b/c@latest"`. -/
theorem C8_fullPath_trailing_separator_cex :
    fullPath "a/b" "c/" "latest" = "a/b/c/@latest" ∧
    fullPath "a/b" "c/" "latest" ≠ "a/b/c@latest" := by decide

/-- C8 (amended): `fullPath` is a pure function that appends
`"@" ++ versionTag` to subPath and joins moduleId with the result using
path-join normalization; whenever moduleId is a non-empty
slash-separated sequence of normal segments (possibly with redundant
separators after the first segment), subPath is a slash-separated
sequence of fields that are empty or normal and ends in a normal
segment, and versionTag is slash-free, the target is the
slash-join of all non-empty segments with `@versionTag` immediately
after the final segment; redundant (doubled or collapsed-empty)
separators are dropped. -/
theorem C8_fullPath_normal_segments (m₀ : List Char) (ms ts : List (List Char))
    (lastSeg v : List Char)
    (hm₀ : normalSeg m₀)
    (hok : ∀ f ∈ ms ++ ts, segOk f)
    (hlast : normalSeg lastSeg)
    (hv : '/' ∉ v) :
    fullPath (String.mk (joinSlash (m₀ :: ms))) (String.mk (joinSlash (ts ++ [lastSeg])))
        (String.mk v)
      = String.mk (joinSlash (((m₀ :: ms) ++ ts).filter (fun f => !f.isEmpty)
          ++ [lastSeg ++ '@' :: v])) := by
  have hl'ne : lastSeg ++ '@' :: v ≠ [] := by simp
  have hl'ns : '/' ∉ lastSeg ++ '@' :: v := by
    intro h
    rcases List.mem_append.mp h with h | h
    · exact hlast.2.1 h
    · rcases List.mem_cons.mp h with h | h
      · exact absurd h (by decide)
      · exact hv h
  have hl'at : '@' ∈ lastSeg ++ '@' :: v := by simp
  have hl'norm : normalSeg (lastSeg ++ '@' :: v) := by
    refine ⟨hl'ne, hl'ns, ?_, ?_⟩ <;> intro h <;> rw [h] at hl'at <;>
      exact absurd hl'at (by decide)
  have hane : String.mk (joinSlash (m₀ :: ms)) ≠ "" := by
    intro h
    have := congrArg String.data h
    exact joinSlash_cons_ne_nil m₀ ms hm₀.1 this
  have hdata :
      (String.mk (joinSlash (m₀ :: ms)) ++ "/"
        ++ (String.mk (joinSlash (ts ++ [lastSeg])) ++ "@" ++ String.mk v)).data
      = joinSlash (m₀ :: (ms ++ ts ++ [lastSeg ++ '@' :: v])) := by
    have h1 : (String.mk (joinSlash (m₀ :: ms)) ++ "/"
        ++ (String.mk (joinSlash (ts ++ [lastSeg])) ++ "@" ++ String.mk v)).data
        = joinSlash (m₀ :: ms) ++ '/' :: (joinSlash (ts ++ [lastSeg]) ++ '@' :: v) := by
      simp [String.data_append]
    rw [h1]
    have h2 : joinSlash (ts ++ [lastSeg]) ++ '@' :: v
        = joinSlash (ts ++ [lastSeg ++ '@' :: v]) := joinSlash_last_append ts lastSeg ('@' :: v)
    rw [h2, ← joinSlash_append (m₀ :: ms) (ts ++ [lastSeg ++ '@' :: v]) (by simp) (by simp)]
    simp
  have hok' : ∀ f ∈ m₀ :: (ms ++ ts ++ [lastSeg ++ '@' :: v]), segOk f := by
    intro f hf
    rcases List.mem_cons.mp hf with h | h
    · exact Or.inr (h ▸ hm₀)
    · rcases List.mem_append.mp h with h | h
      · exact hok f h
      · rcases List.mem_singleton.mp h with rfl
        exact Or.inr hl'norm
  have hmain := pathClean_fields _ m₀ (ms ++ ts ++ [lastSeg ++ '@' :: v]) hdata hm₀ hok'
  have hfil : (m₀ :: (ms ++ ts ++ [lastSeg ++ '@' :: v])).filter (fun f => !f.isEmpty)
      = ((m₀ :: ms) ++ ts).filter (fun f => !f.isEmpty) ++ [lastSeg ++ '@' :: v] := by
    have hk0 : (!m₀.isEmpty) = true := by
      rcases hf : m₀ with _ | ⟨c, f'⟩
      · exact absurd hf hm₀.1
      · rfl
    have hkl : (!(lastSeg ++ '@' :: v).isEmpty) = true := by
      rcases hf : lastSeg ++ '@' :: v with _ | ⟨c, f'⟩
      · exact absurd hf hl'ne
      · rfl
    simp [List.filter_cons, List.filter_append, hk0, hkl]
  show pathJoin _ _ = _
  unfold pathJoin
  rw [if_neg (fun hand => hane hand.1), if_neg hane, hmain, hfil]

/-- C8 (amended) witness: module `"a/b"`, subPath `"c//d"` (with a
redundant separator) and tag `"latest"` give `"a/b/c/d@latest"`. -/
theorem C8_fullPath_normal_segments_witness :
    fullPath "a/b" "c//d" "latest" = "a/b/c/d@latest" :=
  C8_fullPath_normal_segments ['a'] [['b']] [['c'], []] ['d'] ['l', 'a', 't', 'e', 's', 't']
    (by decide) (by decide) (by decide) (by decide)

end Autoupgrade
